import Mathlib

/-!
Verification of the log-reconciliation scripts in `logsAnalysis/`.

The Python sources are shallowly embedded: each script's loop becomes a
`List.foldl` over explicit row lists with an explicit accumulator, dicts
keyed by user id become functions out of `String`, and Python sets of the
three study roles become a record of three Booleans.  CSV reading,
printing and other I/O are outside the embedding; the functions below are
the decision logic of the scripts, translated line by line.
-/

/-- The four label categories of `get_role_category` (identical in
`analyze_users.py`, `analyze_users_debug.py`, `analyze_day8_completion.py`,
`analyze_comprehensive_discrepancies.py`, `analyze_missing_summary.py`). -/
inductive RoleCat where
  | athens
  | northAmerica
  | marsColony
  | other
deriving DecidableEq, Repr

/-- Marker substring of the Athens category. -/
def athensStr : String := "Athens"

/-- Marker substring of the North America category. -/
def naStr : String := "North America"

/-- Marker substring of the Mars Colony category. -/
def marsStr : String := "Mars Colony"

/-- `startsWithL pat s`: the char list `pat` is an initial segment of `s`. -/
def startsWithL : List Char → List Char → Bool
  | [], _ => true
  | _ :: _, [] => false
  | a :: as, b :: bs => a == b && startsWithL as bs

/-- `containsL pat s`: the char list `pat` occurs contiguously in `s`
(Python's `pat in s` on strings). -/
def containsL (pat : List Char) : List Char → Bool
  | [] => startsWithL pat []
  | c :: rest => startsWithL pat (c :: rest) || containsL pat rest

/-- Substring containment on strings: Python's `pat in s`. -/
def substrB (pat s : String) : Bool :=
  containsL pat.toList s.toList

/-- `get_role_category` from the analysis scripts: first-match-wins on the
three marker substrings, in the fixed order Athens, North America,
Mars Colony; anything else is `other`. -/
def getRoleCategory (s : String) : RoleCat :=
  if substrB athensStr s then .athens
  else if substrB naStr s then .northAmerica
  else if substrB marsStr s then .marsColony
  else .other

/-- The marker substring the scripts use to detect a category inside a
free-text label (`other` has no marker). -/
def markerOf : RoleCat → String
  | .athens => athensStr
  | .northAmerica => naStr
  | .marsColony => marsStr
  | .other => ""

/-- A Python set of the three study roles (`Other` is never inserted by any
script, so three Booleans represent every reachable set). -/
structure RoleSet where
  athens : Bool
  na : Bool
  mars : Bool
deriving DecidableEq, Repr

/-- The empty role set. -/
def RoleSet.empty : RoleSet := ⟨false, false, false⟩

/-- `roles.add c`: Python `roles.add(category)`; the scripts only call it
with a non-`other` category, on which it sets the matching flag. -/
def RoleSet.add (r : RoleSet) : RoleCat → RoleSet
  | .athens => { r with athens := true }
  | .northAmerica => { r with na := true }
  | .marsColony => { r with mars := true }
  | .other => r

/-- Membership test (`c in roles`). -/
def RoleSet.mem (r : RoleSet) : RoleCat → Bool
  | .athens => r.athens
  | .northAmerica => r.na
  | .marsColony => r.mars
  | .other => false

/-- `len(roles)` for a set holding only the three study roles. -/
def RoleSet.card (r : RoleSet) : Nat :=
  (if r.athens then 1 else 0) + (if r.na then 1 else 0) + (if r.mars then 1 else 0)

/-- The completion buckets of `analyze_users_debug.py` (its classification
loop, plus the `UNCLASSIFIED` fallback printed when no branch fires). -/
inductive Bucket where
  | noValidRoles
  | allThree
  | athensOnly
  | athensAndNA
  | noAthensButOther
  | athensAndMars
  | unclassified
deriving DecidableEq, Repr

/-- The per-user classification chain of `analyze_users_debug.py`
(`if len(roles) == 0 ... elif ... else UNCLASSIFIED`), as a function of the
user's role set. -/
def classifyCompletion (r : RoleSet) : Bucket :=
  if r.card = 0 then .noValidRoles
  else if r.athens && r.na && r.mars then .allThree
  else if r.athens && r.card == 1 then .athensOnly
  else if r.athens && r.na && !r.mars then .athensAndNA
  else if (r.na || r.mars) && !r.athens then .noAthensButOther
  else if r.athens && r.mars && !r.na then .athensAndMars
  else .unclassified

/-- The six branch conditions of the decision table, in source order, as
they are tested on a role set (the value of each `if`/`elif` guard). -/
def branchConds (r : RoleSet) : List Bool :=
  [decide (r.card = 0),
   r.athens && r.na && r.mars,
   r.athens && decide (r.card = 1),
   r.athens && r.na && !r.mars,
   (r.na || r.mars) && !r.athens,
   r.athens && r.mars && !r.na]

/-- C1: for every role set drawn from the 3-element universe, exactly one
branch condition of the decision table holds, and the classification never
falls through to the `unclassified` fallback. -/
theorem completion_table_exhaustive :
    ∀ r : RoleSet,
      (branchConds r).count true = 1 ∧ classifyCompletion r ≠ Bucket.unclassified := by
  intro r
  rcases r with ⟨a, n, m⟩
  revert a n m
  decide

/-- C8: the role classifier is first-match-wins with Athens highest: any
label containing the Athens marker substring classifies as Athens, whatever
other markers it also contains. -/
theorem classifier_athens_first :
    ∀ label : String, substrB athensStr label = true →
      getRoleCategory label = RoleCat.athens := by
  intro label h
  simp [getRoleCategory, h]

/-- Witness for C8 at the spec's own example label, which also contains the
Mars Colony marker. -/
theorem classifier_athens_first_witness :
    getRoleCategory "Athens Mars Colony trip" = RoleCat.athens :=
  classifier_athens_first ("Athens Mars Colony trip") (by decide)

/-- A summary-log row: the two columns the scripts read. -/
structure SummaryRow where
  userId : String
  role : String
deriving DecidableEq, Repr

/-- The two operator accounts hard-coded as exclusions in
`analyze_users_debug.py`, `analyze_day8_completion.py`,
`verify_discrepancy.py`, `analyze_comprehensive_discrepancies.py`,
`analyze_missing_summary.py` and `filter_ingame_logs.py`. -/
def excludedUsers : List String := ["yoav@tau.ac.il", "yoni_levy@tau.ac.il"]

/-- The row guard of the summary loop in `analyze_day8_completion.py`
(`if not uid or uid in excluded_users: continue`) together with the test
that the row contributes a role (`role != "Other"`), restricted to rows of
one user `uid`. -/
def day8Guard (uid : String) (row : SummaryRow) : Bool :=
  row.userId == uid && !(row.userId == "") && !(excludedUsers.contains row.userId)
    && !(getRoleCategory row.role == RoleCat.other)

/-- One step of the `targets` accumulation of `analyze_day8_completion.py`:
a row passing the guard adds its classified role to the user's set. -/
def day8Step (uid : String) (acc : RoleSet) (row : SummaryRow) : RoleSet :=
  if day8Guard uid row then acc.add (getRoleCategory row.role) else acc

/-- The value of `targets[uid]` (empty when the key was never created):
the set of non-`Other` classified roles of `uid`'s summary rows. -/
def targetRoles (rows : List SummaryRow) (uid : String) : RoleSet :=
  rows.foldl (day8Step uid) RoleSet.empty

/-- Whether `uid` is a key of `targets` in `analyze_day8_completion.py`:
a key is created exactly when some row passes the guard. -/
def targetsMem (rows : List SummaryRow) (uid : String) : Bool :=
  rows.any (day8Guard uid)

/-- The `missing` set computed from a user's summary roles in
`analyze_day8_completion.py` (the four-branch chain; a fall-through —
all three roles present — leaves `missing` empty). -/
def missingRoles (r : RoleSet) : RoleSet :=
  if r.athens && !r.na && !r.mars then ⟨false, true, true⟩
  else if r.athens && r.na && !r.mars then ⟨false, false, true⟩
  else if r.athens && !r.na && r.mars then ⟨false, true, false⟩
  else if !r.athens then ⟨true, !r.na, !r.mars⟩
  else RoleSet.empty

/-- The value `users_to_check.get(uid, set())` after the first phase of
`analyze_day8_completion.py`: a key appears only for users in `targets`
whose `missing` set is non-empty. -/
def expectedMissing (rows : List SummaryRow) (uid : String) : RoleSet :=
  if targetsMem rows uid then
    if missingRoles (targetRoles rows uid) = RoleSet.empty then RoleSet.empty
    else missingRoles (targetRoles rows uid)
  else RoleSet.empty

/-- The expected-missing function exactly as the claim words it (a second
definition, written from the spec, to compare with the code's): named role
sets map to named missing sets, the Athens-absent non-empty sets add the
absent roles to Athens, and the empty and full sets expect nothing. -/
def specExpectedMissing (r : RoleSet) : RoleSet :=
  if r = ⟨true, false, false⟩ then ⟨false, true, true⟩
  else if r = ⟨true, true, false⟩ then ⟨false, false, true⟩
  else if r = ⟨true, false, true⟩ then ⟨false, true, false⟩
  else if !r.athens && !(r = RoleSet.empty) then ⟨true, !r.na, !r.mars⟩
  else RoleSet.empty

/-- A fold whose step fixes every list element is the identity on the
accumulator. -/
theorem foldl_fixed {α β : Type} (step : α → β → α) (rows : List β)
    (h : ∀ b ∈ rows, ∀ a, step a b = a) :
    ∀ acc : α, rows.foldl step acc = acc := by
  induction rows with
  | nil => intro acc; rfl
  | cons row rest ih =>
    intro acc
    rw [List.foldl_cons, h row (by simp), ih (fun b hb a => h b (by simp [hb]) a)]

/-- Adding a non-`other` category to a role set never yields the empty set. -/
theorem add_ne_empty (r : RoleSet) (c : RoleCat) (hc : c ≠ RoleCat.other) :
    r.add c ≠ RoleSet.empty := by
  cases c <;> simp_all [RoleSet.add, RoleSet.empty]

/-- The `targets` accumulation of `analyze_day8_completion.py` ends empty
exactly when it started empty and no row passed the guard. -/
theorem day8_foldl_empty_iff (uid : String) (rows : List SummaryRow) :
    ∀ acc : RoleSet,
      rows.foldl (day8Step uid) acc = RoleSet.empty ↔
        (acc = RoleSet.empty ∧ rows.any (day8Guard uid) = false) := by
  induction rows with
  | nil => intro acc; simp
  | cons row rest ih =>
    intro acc
    rw [List.foldl_cons, ih, List.any_cons]
    by_cases hg : day8Guard uid row = true
    · have hrole : getRoleCategory row.role ≠ RoleCat.other := by
        intro hother
        simp [day8Guard, hother] at hg
      have hne := add_ne_empty acc (getRoleCategory row.role) hrole
      simp [day8Step, hg, hne]
    · simp [day8Step, hg]

/-- On a non-empty role set the `missing` chain of the code agrees with the
spec's table; guarded by the non-emptiness the code establishes before it
ever computes `missing`. -/
theorem missing_eq_spec_of_ne (r : RoleSet) (h : r ≠ RoleSet.empty) :
    (if missingRoles r = RoleSet.empty then RoleSet.empty else missingRoles r)
      = specExpectedMissing r := by
  rcases r with ⟨a, n, m⟩
  revert h
  revert a n m
  decide

/-- C2: for every summary input and every user, the expected-missing set
`analyze_day8_completion.py` ends up checking for that user equals the
spec's table applied to the user's summary role profile (users with an
empty profile — never seen, or seen only with `Other` labels — are checked
for nothing). -/
theorem expected_missing_matches_table :
    ∀ (rows : List SummaryRow) (uid : String),
      expectedMissing rows uid = specExpectedMissing (targetRoles rows uid) := by
  intro rows uid
  unfold expectedMissing
  cases hmem : targetsMem rows uid with
  | false =>
    have hempty : targetRoles rows uid = RoleSet.empty := by
      rw [targetRoles, day8_foldl_empty_iff]
      exact ⟨rfl, by rwa [targetsMem] at hmem⟩
    rw [hempty]
    simp [specExpectedMissing, RoleSet.empty]
  | true =>
    have hne : targetRoles rows uid ≠ RoleSet.empty := by
      rw [targetRoles]
      intro hcon
      rw [day8_foldl_empty_iff] at hcon
      rw [targetsMem] at hmem
      rw [hmem] at hcon
      exact Bool.noConfusion hcon.2
    simp only [if_pos rfl]
    exact missing_eq_spec_of_ne _ hne

/-- An in-game-log row: the columns the scripts read, plus the remaining
columns (`extra`), which the rewrite must carry through verbatim. -/
structure IngameRow where
  userId : String
  role : String
  day : String
  timestamp : String
  extra : List (String × String)
deriving DecidableEq, Repr

/-- The loop state of `filter_ingame_logs.py`: `kept_rows`, `removed_count`
and `total_count`. -/
structure FilterRes where
  kept : List IngameRow
  removed : Nat
  total : Nat
deriving DecidableEq, Repr

/-- One iteration of the filtering loop of `filter_ingame_logs.py`: count
the row, append it to `kept_rows` when its user is valid, otherwise count
it as removed. -/
def filterStep (valid : List String) (acc : FilterRes) (row : IngameRow) : FilterRes :=
  if row.userId ∈ valid then ⟨acc.kept ++ [row], acc.removed, acc.total + 1⟩
  else ⟨acc.kept, acc.removed + 1, acc.total + 1⟩

/-- The whole filtering pass of `filter_ingame_logs.py` over the in-game
rows, from empty counters. -/
def filterIngame (valid : List String) (rows : List IngameRow) : FilterRes :=
  rows.foldl (filterStep valid) ⟨[], 0, 0⟩

/-- The kept rows of the filtering loop are the accumulator's rows followed
by exactly the valid-user rows, in order and unchanged. -/
theorem filter_kept (valid : List String) (rows : List IngameRow) :
    ∀ acc : FilterRes,
      (rows.foldl (filterStep valid) acc).kept
        = acc.kept ++ rows.filter (fun r => decide (r.userId ∈ valid)) := by
  induction rows with
  | nil => intro acc; simp
  | cons row rest ih =>
    intro acc
    rw [List.foldl_cons, ih, List.filter_cons]
    by_cases h : row.userId ∈ valid
    · simp [filterStep, h, List.append_assoc]
    · simp [filterStep, h]

/-- The total counter of the filtering loop counts every row seen. -/
theorem filter_total (valid : List String) (rows : List IngameRow) :
    ∀ acc : FilterRes,
      (rows.foldl (filterStep valid) acc).total = acc.total + rows.length := by
  induction rows with
  | nil => intro acc; simp
  | cons row rest ih =>
    intro acc
    rw [List.foldl_cons, ih]
    have hstep : (filterStep valid acc row).total = acc.total + 1 := by
      unfold filterStep
      split <;> rfl
    rw [hstep, List.length_cons]
    omega

/-- The filtering loop preserves `kept count + removed count = total`. -/
theorem filter_inv (valid : List String) (rows : List IngameRow) :
    ∀ acc : FilterRes,
      acc.kept.length + acc.removed = acc.total →
      (rows.foldl (filterStep valid) acc).kept.length
          + (rows.foldl (filterStep valid) acc).removed
        = (rows.foldl (filterStep valid) acc).total := by
  induction rows with
  | nil => intro acc h; simpa using h
  | cons row rest ih =>
    intro acc h
    rw [List.foldl_cons]
    apply ih
    unfold filterStep
    by_cases hv : row.userId ∈ valid
    · simp only [if_pos hv, List.length_append, List.length_singleton]
      omega
    · simp only [if_neg hv]
      omega

/-- C4: in every run of the Population Filter, the total counter equals the
rows seen, kept plus removed equals total, and the kept rows are exactly
the rows of valid users, in their original order with every column
unchanged (they are the unmodified row values, filtered). -/
theorem population_filter_correct :
    ∀ (valid : List String) (rows : List IngameRow),
      (filterIngame valid rows).total = rows.length ∧
      (filterIngame valid rows).kept.length + (filterIngame valid rows).removed
          = (filterIngame valid rows).total ∧
      (filterIngame valid rows).kept
          = rows.filter (fun r => decide (r.userId ∈ valid)) := by
  intro valid rows
  refine ⟨?_, ?_, ?_⟩
  · rw [filterIngame, filter_total]
    simp
  · rw [filterIngame]
    apply filter_inv
    rfl
  · rw [filterIngame, filter_kept]
    rfl

/-- Whether `analyze_users_debug.py` creates a `users_roles` entry for
`uid`: some summary row carries that id, the id is non-empty and the id is
not one of the operator accounts. -/
def dbgSeen (rows : List SummaryRow) (uid : String) : Bool :=
  rows.any (fun row =>
    row.userId == uid && !(row.userId == "") && !(excludedUsers.contains row.userId))

/-- The `users_roles[uid]` value `analyze_users_debug.py` builds: the same
accumulation of non-`Other` classified roles as `analyze_day8_completion.py`
(the two loops add a role under the same guard), so the definition is
shared. -/
def dbgProfile (rows : List SummaryRow) (uid : String) : RoleSet :=
  targetRoles rows uid

/-- A user id used in concrete examples. -/
def u7 : String := "u7"

/-- A free-text site label that matches none of the three markers. -/
def telAvivStr : String := "Tel Aviv"

/-- Whether `analyze_users.py` (the original analysis script, which has no
exclusion filter) creates a `users_roles` entry for `uid`: it skips only
rows with an empty user id. -/
def auSeen (rows : List SummaryRow) (uid : String) : Bool :=
  rows.any (fun row => row.userId == uid && !(row.userId == ""))

/-- One step of the `users_roles` accumulation of `analyze_users.py`
(empty-id guard only, no exclusion), restricted to rows of one user. -/
def auStep (uid : String) (acc : RoleSet) (row : SummaryRow) : RoleSet :=
  if row.userId == uid && !(row.userId == "")
      && !(getRoleCategory row.role == RoleCat.other) then
    acc.add (getRoleCategory row.role)
  else acc

/-- The `users_roles[uid]` value `analyze_users.py` builds. -/
def auProfile (rows : List SummaryRow) (uid : String) : RoleSet :=
  rows.foldl (auStep uid) RoleSet.empty

/-- Whether the profile builders of `verify_discrepancy.py` (its
`users_summary_roles` loop) and `analyze_comprehensive_discrepancies.py`
create an entry for `uid`.  Both create the entry only inside the
`role != "Other"` branch, after the empty-id and exclusion guards, so a
key exists exactly when some row passes the same guard as the `targets`
phase of `analyze_day8_completion.py`. -/
def vdSeen (rows : List SummaryRow) (uid : String) : Bool :=
  targetsMem rows uid

/-- C7 counterexample: a user whose one summary row carries their
non-empty, non-excluded id and an `Other`-classified label gets no entry
at all from the cited builders of `verify_discrepancy.py` and
`analyze_comprehensive_discrepancies.py` — exactly as if the user had
never been seen — refuting the claimed empty-entry property for the cited
code. -/
theorem cited_builders_drop_other_only_user :
    u7 ≠ "" ∧ excludedUsers.contains u7 = false ∧
    getRoleCategory telAvivStr = RoleCat.other ∧
    vdSeen [⟨u7, telAvivStr⟩] u7 = false ∧
    vdSeen ([] : List SummaryRow) u7 = false := by
  decide

/-- C7 amended: a user all of whose summary rows carry their (non-empty,
non-excluded) id and only `Other`-classified labels gets a profile entry
with an empty role set from the builders that create the entry before
testing the classification — `analyze_users.py` and
`analyze_users_debug.py` — and stays distinguishable there from a user
never seen; the builders of `verify_discrepancy.py` and
`analyze_comprehensive_discrepancies.py` create entries only for
non-`Other` roles and give such a user no entry at all. -/
theorem other_only_user_kept_with_empty_roles :
    ∀ (rows : List SummaryRow) (uid : String),
      uid ≠ "" →
      excludedUsers.contains uid = false →
      (∃ row ∈ rows, row.userId = uid) →
      (∀ row ∈ rows, row.userId = uid → getRoleCategory row.role = RoleCat.other) →
      dbgSeen rows uid = true ∧ dbgProfile rows uid = RoleSet.empty ∧
        auSeen rows uid = true ∧ auProfile rows uid = RoleSet.empty ∧
        vdSeen rows uid = false := by
  intro rows uid hne hexcl hseen hother
  have hnotin : uid ∉ excludedUsers := by simpa using hexcl
  have hguard : ∀ row ∈ rows, day8Guard uid row = false := by
    intro row hmem
    by_cases hid : row.userId = uid
    · have := hother row hmem hid
      simp [day8Guard, this]
    · simp [day8Guard, hid]
  refine ⟨?_, ?_, ?_, ?_, ?_⟩
  · obtain ⟨row, hmem, hid⟩ := hseen
    rw [dbgSeen, List.any_eq_true]
    refine ⟨row, hmem, ?_⟩
    simp [hid, hne, hnotin]
  · rw [dbgProfile, targetRoles]
    apply foldl_fixed
    intro row hmem acc
    rw [day8Step, hguard row hmem]
    rfl
  · obtain ⟨row, hmem, hid⟩ := hseen
    rw [auSeen, List.any_eq_true]
    refine ⟨row, hmem, ?_⟩
    simp [hid, hne]
  · rw [auProfile]
    apply foldl_fixed
    intro row hmem acc
    rw [auStep]
    by_cases hid : row.userId = uid
    · have := hother row hmem hid
      simp [this]
    · simp [hid]
  · rw [vdSeen, targetsMem, List.any_eq_false]
    intro row hmem
    simp [hguard row hmem]

/-- Witness for C7: a user seen once with an `Other`-classified label gets
an empty-role-set entry from the unconditional builders and no entry from
the conditional ones. -/
theorem other_only_user_kept_with_empty_roles_witness :
    dbgSeen [⟨u7, telAvivStr⟩] u7 = true ∧
      dbgProfile [⟨u7, telAvivStr⟩] u7 = RoleSet.empty ∧
      auSeen [⟨u7, telAvivStr⟩] u7 = true ∧
      auProfile [⟨u7, telAvivStr⟩] u7 = RoleSet.empty ∧
      vdSeen [⟨u7, telAvivStr⟩] u7 = false :=
  other_only_user_kept_with_empty_roles [⟨u7, telAvivStr⟩] u7 (by decide) (by decide)
    ⟨⟨u7, telAvivStr⟩, by simp, rfl⟩ (by decide)

/-- Value of a non-empty all-digit character list in base 10; `none`
otherwise. -/
def digitsVal (cs : List Char) : Option Nat :=
  if !cs.isEmpty && cs.all Char.isDigit then
    some (cs.foldl (fun a c => a * 10 + (c.toNat - 48)) 0)
  else none

/-- Python's `int(s)` as the scripts apply it to `day` fields: surrounding
whitespace is stripped, an optional sign precedes decimal digits, anything
else raises — modelled as `none` (digit-group underscores are not
modelled; no script input uses them). -/
def pyInt (s : String) : Option Int :=
  match ((s.toList.dropWhile Char.isWhitespace).reverse.dropWhile Char.isWhitespace).reverse with
  | '-' :: rest => (digitsVal rest).map (fun n => -(n : Int))
  | '+' :: rest => (digitsVal rest).map (fun n => (n : Int))
  | cs => (digitsVal cs).map (fun n => (n : Int))

/-- The membership-style match of the in-game loop in
`analyze_day8_completion.py`: the first of Athens, North America,
Mars Colony whose marker occurs in the label AND which is among the user's
target roles (`matched_target`). -/
def matchedTarget (t : RoleSet) (label : String) : Option RoleCat :=
  if substrB athensStr label && t.athens then some .athens
  else if substrB naStr label && t.na then some .northAmerica
  else if substrB marsStr label && t.mars then some .marsColony
  else none

/-- The day value the verification pass compares against (`day_val == '8'`
in `analyze_day8_completion.py`). -/
def dayFilterStr : String := "8"

/-- One iteration of the in-game loop of `analyze_day8_completion.py`:
skip users outside `users_to_check`, find `matched_target`, and on a day-8
row record verified=true for that (user, category) pair. -/
def verStep (expected : String → RoleSet) (st : String → RoleCat → Bool)
    (row : IngameRow) : String → RoleCat → Bool :=
  if expected row.userId = RoleSet.empty then st
  else
    match matchedTarget (expected row.userId) row.role with
    | none => st
    | some c =>
      if row.day = dayFilterStr then
        fun u k => if u = row.userId ∧ k = c then true else st u k
      else st

/-- The whole verification pass (`results`, read back with default
`False`). -/
def verifyDay8 (expected : String → RoleSet) (rows : List IngameRow) :
    String → RoleCat → Bool :=
  rows.foldl (verStep expected) (fun _ _ => false)

/-- The empty role set matches no target. -/
theorem matchedTarget_empty (label : String) :
    matchedTarget RoleSet.empty label = none := by
  simp [matchedTarget, RoleSet.empty]

/-- What one verifier step records: the old state, or the row's own
(user, matched category) hit on the filter day. -/
theorem verStep_iff (expected : String → RoleSet) (st : String → RoleCat → Bool)
    (row : IngameRow) (uid : String) (c : RoleCat) :
    verStep expected st row uid c = true ↔
      st uid c = true ∨
        (row.userId = uid ∧ row.day = dayFilterStr ∧
          matchedTarget (expected uid) row.role = some c) := by
  unfold verStep
  by_cases hemp : expected row.userId = RoleSet.empty
  · rw [if_pos hemp]
    constructor
    · exact Or.inl
    · rintro (h | ⟨huid, _, hmt⟩)
      · exact h
      · rw [← huid, hemp, matchedTarget_empty] at hmt
        exact Option.noConfusion hmt
  · rw [if_neg hemp]
    cases hm : matchedTarget (expected row.userId) row.role with
    | none =>
      constructor
      · exact Or.inl
      · rintro (h | ⟨huid, _, hmt⟩)
        · exact h
        · rw [← huid, hm] at hmt
          exact Option.noConfusion hmt
    | some c2 =>
      show (if row.day = dayFilterStr then
          fun u k => if u = row.userId ∧ k = c2 then true else st u k else st) uid c = true ↔ _
      by_cases hd : row.day = dayFilterStr
      · rw [if_pos hd]
        show (if uid = row.userId ∧ c = c2 then true else st uid c) = true ↔ _
        by_cases hu : uid = row.userId ∧ c = c2
        · rw [if_pos hu]
          constructor
          · intro _
            refine Or.inr ⟨hu.1.symm, hd, ?_⟩
            rw [hu.1, hm, hu.2]
          · intro _
            rfl
        · rw [if_neg hu]
          constructor
          · exact Or.inl
          · rintro (h | ⟨huid, _, hmt⟩)
            · exact h
            · rw [← huid] at hmt
              have hc2 := Option.some.inj (hm.symm.trans hmt)
              exact absurd ⟨huid.symm, hc2.symm⟩ hu
      · rw [if_neg hd]
        constructor
        · exact Or.inl
        · rintro (h | ⟨_, hday, _⟩)
          · exact h
          · exact absurd hday hd

/-- What the verification fold records over a row list, from any starting
state: a starting hit, or a hit on some row of the list. -/
theorem verify_foldl_iff (expected : String → RoleSet) (uid : String) (c : RoleCat)
    (rows : List IngameRow) :
    ∀ st : String → RoleCat → Bool,
      (rows.foldl (verStep expected) st) uid c = true ↔
        st uid c = true ∨
          ∃ row ∈ rows, row.userId = uid ∧ row.day = dayFilterStr ∧
            matchedTarget (expected uid) row.role = some c := by
  induction rows with
  | nil => intro st; simp
  | cons row rest ih =>
    intro st
    rw [List.foldl_cons, ih, verStep_iff]
    constructor
    · rintro ((h | hrow) | ⟨r, hr, hp⟩)
      · exact Or.inl h
      · exact Or.inr ⟨row, by simp, hrow⟩
      · exact Or.inr ⟨r, by simp [hr], hp⟩
    · rintro (h | ⟨r, hr, hp⟩)
      · exact Or.inl (Or.inl h)
      · rcases List.mem_cons.mp hr with heq | hmem
        · exact Or.inl (Or.inr (heq ▸ hp))
        · exact Or.inr ⟨r, hmem, hp⟩

/-- C9: the verified status is monotone across a pass — whatever is
verified after a prefix of the rows stays verified after any extension. -/
theorem verified_status_monotone :
    ∀ (expected : String → RoleSet) (rows more : List IngameRow)
      (uid : String) (c : RoleCat),
      verifyDay8 expected rows uid c = true →
      verifyDay8 expected (rows ++ more) uid c = true := by
  intro expected rows more uid c h
  rw [verifyDay8, verify_foldl_iff] at h ⊢
  rcases h with h | ⟨r, hr, hp⟩
  · exact absurd h (by simp)
  · exact Or.inr ⟨r, List.mem_append_left more hr, hp⟩

/-- The expectation map used by the concrete examples: user `u7` is
expected to complete Mars Colony, no one else is expected anything. -/
def expectedU7 : String → RoleSet :=
  fun u => if u = u7 then ⟨false, false, true⟩ else RoleSet.empty

/-- A day-8 Mars Colony row of user `u7`. -/
def marsDay8Row : IngameRow := ⟨u7, marsStr, "8", "", []⟩

/-- An `Other`-labelled row of user `u7`. -/
def otherRow : IngameRow := ⟨u7, telAvivStr, "8", "", []⟩

/-- Witness for C9: a pair verified on a one-row prefix stays verified
after another row is appended. -/
theorem verified_status_monotone_witness :
    verifyDay8 expectedU7 ([marsDay8Row] ++ [otherRow]) u7 RoleCat.marsColony = true :=
  verified_status_monotone expectedU7 [marsDay8Row] [otherRow] u7 RoleCat.marsColony
    (by decide)

/-- C3 exactly as claimed: verified=true iff the category is expected and
some row of that user carries its marker with a day field that equals the
filter value after a best-effort integer parse. -/
def claimDayParseVerify : Prop :=
  ∀ (expected : String → RoleSet) (rows : List IngameRow) (uid : String) (c : RoleCat),
    verifyDay8 expected rows uid c = true ↔
      ((expected uid).mem c = true ∧
        ∃ row ∈ rows, row.userId = uid ∧ substrB (markerOf c) row.role = true ∧
          pyInt row.day = some 8)

/-- A Mars Colony row of user `u7` whose day field is the string `08`:
it parses to the integer 8 but is not string-equal to the filter value. -/
def marsDay08Row : IngameRow := ⟨u7, marsStr, "08", "", []⟩

/-- C3 counterexample: on a day-`08` row the claim's parse-based reading
says verified while the code's exact string comparison records nothing. -/
theorem verify_day8_not_parse_based : ¬ claimDayParseVerify := by
  intro h
  have hiff := h expectedU7 [marsDay08Row] u7 RoleCat.marsColony
  have hrhs : (expectedU7 u7).mem RoleCat.marsColony = true ∧
      ∃ row ∈ [marsDay08Row], row.userId = u7 ∧
        substrB (markerOf RoleCat.marsColony) row.role = true ∧
        pyInt row.day = some 8 :=
    ⟨by decide, marsDay08Row, by simp, by decide⟩
  exact absurd (hiff.mpr hrhs) (by decide)

/-- C3 amended: with the day filter set, verified=true for (uid, C) iff
some row of uid has day field string-equal to the filter value and C is
the first category in priority order (Athens, North America, Mars Colony)
whose marker occurs in the row's label among uid's expected categories;
markers of categories outside the expected set are ignored, and a day
field that is not the exact filter string (parseable or not) never
matches, without error. -/
theorem verify_day8_characterization :
    ∀ (expected : String → RoleSet) (rows : List IngameRow) (uid : String) (c : RoleCat),
      verifyDay8 expected rows uid c = true ↔
        ∃ row ∈ rows, row.userId = uid ∧ row.day = dayFilterStr ∧
          matchedTarget (expected uid) row.role = some c := by
  intro expected rows uid c
  rw [verifyDay8, verify_foldl_iff]
  simp

/-- One iteration of the in-game loop of `analyze_max_day.py`, for a fixed
(user, target-role) pair: on a row of that user whose label contains the
target's marker, parse the day and keep the larger value; parse failures
are ignored. -/
def maxDayStep (uid : String) (target : RoleCat) (acc : Int) (row : IngameRow) : Int :=
  if row.userId = uid then
    if substrB (markerOf target) row.role = true then
      match pyInt row.day with
      | some d => if d > acc then d else acc
      | none => acc
    else acc
  else acc

/-- The max-day aggregate of `analyze_max_day.py` for one target pair
(`max_days[uid]`, initialised to 0). -/
def maxDayScan (uid : String) (target : RoleCat) (rows : List IngameRow) : Int :=
  rows.foldl (maxDayStep uid target) 0

/-- The parseable day values of the rows the scan matches (the user's rows
whose label contains the target's marker). -/
def matchingDays (uid : String) (target : RoleCat) (rows : List IngameRow) : List Int :=
  rows.filterMap (fun row =>
    if row.userId = uid ∧ substrB (markerOf target) row.role = true then pyInt row.day
    else none)

/-- `if d > a then d else a` is the binary maximum. -/
theorem if_gt_eq_max (a d : Int) : (if d > a then d else a) = max a d := by
  rcases le_or_lt d a with h | h
  · rw [if_neg (not_lt.mpr h), max_eq_left h]
  · rw [if_pos h, max_eq_right h.le]

/-- The max-day fold is the maximum fold over the matching parseable
days. -/
theorem maxDay_foldl_eq (uid : String) (target : RoleCat) (rows : List IngameRow) :
    ∀ a : Int,
      rows.foldl (maxDayStep uid target) a = (matchingDays uid target rows).foldl max a := by
  induction rows with
  | nil => intro a; rfl
  | cons row rest ih =>
    intro a
    rw [List.foldl_cons, matchingDays, List.filterMap_cons]
    by_cases hu : row.userId = uid
    · by_cases hs : substrB (markerOf target) row.role = true
      · cases hp : pyInt row.day with
        | none =>
          simp only [hu, hs, and_self, if_pos, hp]
          rw [show maxDayStep uid target a row = a from by simp [maxDayStep, hu, hs, hp]]
          exact ih a
        | some d =>
          simp only [hu, hs, and_self, if_pos, hp]
          rw [show maxDayStep uid target a row = max a d from by
            simp [maxDayStep, hu, hs, hp, if_gt_eq_max]]
          rw [List.foldl_cons]
          exact ih (max a d)
      · simp only [hu, hs, and_false, if_neg, false_and]
        rw [show maxDayStep uid target a row = a from by simp [maxDayStep, hu, hs]]
        exact ih a
    · simp only [hu, false_and, if_neg, not_false_iff]
      rw [show maxDayStep uid target a row = a from by simp [maxDayStep, hu]]
      exact ih a

/-- A maximum fold never goes below its start. -/
theorem le_foldl_max (l : List Int) : ∀ a : Int, a ≤ l.foldl max a := by
  induction l with
  | nil => intro a; exact le_refl a
  | cons b t ih =>
    intro a
    rw [List.foldl_cons]
    exact le_trans (le_max_left a b) (ih (max a b))

/-- A maximum fold bounds every list element. -/
theorem foldl_max_ub (l : List Int) : ∀ a : Int, ∀ d ∈ l, d ≤ l.foldl max a := by
  induction l with
  | nil => intro a d hd; exact absurd hd (List.not_mem_nil d)
  | cons b t ih =>
    intro a d hd
    rw [List.foldl_cons]
    rcases List.mem_cons.mp hd with h | h
    · subst h
      exact le_trans (le_max_right a d) (le_foldl_max t (max a d))
    · exact ih (max a b) d h

/-- A maximum fold returns its start or a list element. -/
theorem foldl_max_mem (l : List Int) : ∀ a : Int, l.foldl max a = a ∨ l.foldl max a ∈ l := by
  induction l with
  | nil => intro a; exact Or.inl rfl
  | cons b t ih =>
    intro a
    rw [List.foldl_cons]
    rcases ih (max a b) with h | h
    · rw [h]
      rcases max_choice a b with hm | hm
      · exact Or.inl hm
      · rw [hm]
        exact Or.inr (List.mem_cons_self b t)
    · exact Or.inr (List.mem_cons_of_mem b h)

/-- C10: the max-day aggregate is never negative; it is exactly 0 when no
matching row has a day parsing to a positive integer (so 'no matching
rows' and 'matching rows with day 0' are indistinguishable); and when some
matching row parses to a positive day it returns the maximum parseable day
over the matching rows — in particular a negative parsed value is never
returned. -/
theorem max_day_aggregate_correct :
    ∀ (uid : String) (target : RoleCat) (rows : List IngameRow),
      0 ≤ maxDayScan uid target rows ∧
      ((¬ ∃ d ∈ matchingDays uid target rows, 0 < d) → maxDayScan uid target rows = 0) ∧
      ((∃ d ∈ matchingDays uid target rows, 0 < d) →
        maxDayScan uid target rows ∈ matchingDays uid target rows ∧
          ∀ d ∈ matchingDays uid target rows, d ≤ maxDayScan uid target rows) := by
  intro uid target rows
  have heq : maxDayScan uid target rows = (matchingDays uid target rows).foldl max 0 :=
    maxDay_foldl_eq uid target rows 0
  refine ⟨?_, ?_, ?_⟩
  · rw [heq]
    exact le_foldl_max (matchingDays uid target rows) 0
  · intro hno
    push_neg at hno
    rw [heq]
    rcases foldl_max_mem (matchingDays uid target rows) 0 with h | h
    · exact h
    · exact le_antisymm (hno _ h) (le_foldl_max (matchingDays uid target rows) 0)
  · rintro ⟨d, hd, hdpos⟩
    constructor
    · rw [heq]
      rcases foldl_max_mem (matchingDays uid target rows) 0 with h | h
      · exfalso
        have hub := foldl_max_ub (matchingDays uid target rows) 0 d hd
        rw [h] at hub
        exact absurd (lt_of_lt_of_le hdpos hub) (lt_irrefl 0)
      · exact h
    · intro d2 hd2
      rw [heq]
      exact foldl_max_ub (matchingDays uid target rows) 0 d2 hd2

/-- File-system operations of the rewrite step of `filter_ingame_logs.py`.
The script's `open(input_file, 'w')` / `writeheader()` / `writerows(...)`
sequence is modelled as the trace of operations it issues, so the claim
about what happens under interruption becomes a statement about which
paths the trace touches and how. -/
inductive FsOp where
  | openTrunc (path : String)
  | writeHeader (path : String) (hdr : List String)
  | writeRow (path : String) (row : IngameRow)
  | rename (src dst : String)
deriving DecidableEq, Repr

/-- Whether an operation touches the file at `p`. -/
def FsOp.touches (p : String) : FsOp → Bool
  | .openTrunc q => q == p
  | .writeHeader q _ => q == p
  | .writeRow q _ => q == p
  | .rename s d => s == p || d == p

/-- Whether an operation is a rename. -/
def FsOp.isRenameOp : FsOp → Bool
  | .rename _ _ => true
  | _ => false

/-- The operation trace of the rewrite in `filter_ingame_logs.py`: open
the original for writing — truncating it — then write the header and the
kept rows into it. -/
def rewriteOps (path : String) (hdr : List String) (kept : List IngameRow) : List FsOp :=
  FsOp.openTrunc path :: FsOp.writeHeader path hdr :: kept.map (FsOp.writeRow path)

/-- Atomic write-new-then-replace, as the claim words it: every operation
touching the original file is a single rename from a different, fully
written location. -/
def atomicReplace (ops : List FsOp) (orig : String) : Prop :=
  ∃ tmp, tmp ≠ orig ∧ ∀ op ∈ ops, op.touches orig = true → op = FsOp.rename tmp orig

/-- The path of the in-game log file rewritten by `filter_ingame_logs.py`. -/
def ingameFileStr : String := "logsAnalysis/ingameLogsPilot.csv"

/-- The in-game log's header columns. -/
def headerCols : List String := ["userId", "role", "day", "timestamp"]

/-- C5 counterexample: the rewrite trace of `filter_ingame_logs.py` is not
an atomic write-new-then-replace — its very first operation opens the
original file itself for truncating write. -/
theorem rewrite_not_atomic :
    ¬ atomicReplace (rewriteOps ingameFileStr headerCols [marsDay8Row]) ingameFileStr := by
  rintro ⟨tmp, htmp, hall⟩
  have h := hall (FsOp.openTrunc ingameFileStr) (by simp [rewriteOps])
    (by simp [FsOp.touches])
  exact FsOp.noConfusion h

/-- C5 amended: the rewrite overwrites the original in place — the trace
starts by opening the original file for truncating write, every operation
targets the original file itself, and no rename (hence no temporary
location) occurs; interruption mid-trace can therefore leave a partially
written file visible. -/
theorem rewrite_overwrites_in_place :
    ∀ (path : String) (hdr : List String) (kept : List IngameRow),
      (rewriteOps path hdr kept).head? = some (FsOp.openTrunc path) ∧
      (∀ op ∈ rewriteOps path hdr kept, op.touches path = true) ∧
      (∀ op ∈ rewriteOps path hdr kept, op.isRenameOp = false) := by
  intro path hdr kept
  refine ⟨rfl, ?_, ?_⟩
  · intro op hop
    simp only [rewriteOps, List.mem_cons, List.mem_map] at hop
    rcases hop with rfl | rfl | ⟨row, _, rfl⟩ <;> simp [FsOp.touches]
  · intro op hop
    simp only [rewriteOps, List.mem_cons, List.mem_map] at hop
    rcases hop with rfl | rfl | ⟨row, _, rfl⟩ <;> simp [FsOp.isRenameOp]

/-- The first of the two operator accounts. -/
def yoavStr : String := "yoav@tau.ac.il"

/-- C6 evaluation at the failing input: `analyze_users.py` builds a profile
entry for the excluded operator account and its classification chain
counts that account in the ONLY-Athens bucket, violating the exclusion
invariant that every other script maintains. -/
theorem excluded_user_in_analyze_users_profile :
    yoavStr ∈ excludedUsers ∧
    auSeen [⟨yoavStr, athensStr⟩] yoavStr = true ∧
    auProfile [⟨yoavStr, athensStr⟩] yoavStr = ⟨true, false, false⟩ ∧
    classifyCompletion (auProfile [⟨yoavStr, athensStr⟩] yoavStr) = Bucket.athensOnly := by
  refine ⟨by decide, by decide, by decide, by decide⟩
